import Mathlib

/-!
Verification of the adjacent-strike options-arbitrage monitor (`src/app.py`).

The development shallowly embeds the core logic of the two bot classes
(`ETHWebSocketBot`, `BTCRESTBot`) and the module-level spike detector:

* prices and timestamps are rationals (`ℚ`), strikes are naturals;
* Python dicts become association lists with a lookup that returns the
  first binding (`ledgerLookup`, `groupedLookup`, `storeLookup`);
* the f-string alert keys `"BTC_CALL_{s1}_{s2}"` / `"ETH_CALL_{s1}_{s2}_{expiry}"`
  become the structured key `AlertKey` (the f-string rendering of distinct
  key tuples is distinct, so equality structure is preserved);
* the formatted alert message becomes the `Opportunity` record holding
  exactly the fields interpolated into `alert_msg`;
* the wall-clock instant is modelled by its IST components (the code adds
  a fixed +5:30 offset to UTC and then reads `hour`/`minute`), with
  calendar days abstracted to ordinals: `timedelta(days=1)` is `day + 1`
  and the `strftime("%d%m%y")` rendering (injective on days within a
  century) is not modelled.
-/

set_option autoImplicit false

namespace DeltaArb

/-! Global configuration constants from the top of `app.py`. -/

/-- `DELTA_THRESHOLD["ETH"] = 0.16`. -/
def DELTA_THRESHOLD_ETH : ℚ := 16 / 100

/-- `DELTA_THRESHOLD["BTC"] = 2`. -/
def DELTA_THRESHOLD_BTC : ℚ := 2

/-- `ALERT_COOLDOWN = 60` (seconds). -/
def ALERT_COOLDOWN : ℚ := 60

/-! Expiry resolver (`get_initial_active_expiry` / `should_rollover_expiry`).

The code computes `ist_now = datetime.now(timezone.utc) + timedelta(hours=5,
minutes=30)` and branches on `ist_now.hour >= 17 and ist_now.minute >= 30`.
We represent the instant by its IST wall-clock fields. -/

/-- An instant, given by its IST (UTC+5:30) wall-clock components:
`day` is an abstract calendar-day ordinal, `hour`/`minute` the time of day. -/
structure ISTTime where
  day : ℕ
  hour : ℕ
  minute : ℕ
deriving DecidableEq, Repr

/-- Minutes elapsed since IST midnight; "local time ≥ 17:30" is
`1050 ≤ istMinutesOfDay t`. -/
def istMinutesOfDay (t : ISTTime) : ℕ := 60 * t.hour + t.minute

/-- `ETHWebSocketBot.get_initial_active_expiry` (identical in `BTCRESTBot`):
returns tomorrow's date code when `ist_now.hour >= 17 and ist_now.minute >= 30`,
else today's. The returned day ordinal stands for the `DDMMYY` rendering of
that day. -/
def get_initial_active_expiry (t : ISTTime) : ℕ :=
  if 17 ≤ t.hour ∧ 30 ≤ t.minute then t.day + 1 else t.day

/-- `ETHWebSocketBot.should_rollover_expiry` (identical in `BTCRESTBot`):
`some` of tomorrow's date code when `ist_now.hour >= 17 and ist_now.minute >= 30`,
else `None`. -/
def should_rollover_expiry (t : ISTTime) : Option ℕ :=
  if 17 ≤ t.hour ∧ 30 ≤ t.minute then some (t.day + 1) else none

/-! Strike extraction (`extract_strike`, identical in both bot classes).

String primitives are defined over the underlying character lists by
structural recursion, so that all definitions evaluate inside the kernel. -/

/-- Python `s.split(c)` on the character list: split at every occurrence of
`c`, keeping empty pieces. -/
def splitOnChar (c : Char) : List Char → List (List Char)
  | [] => [[]]
  | x :: xs =>
    match splitOnChar c xs with
    | [] => [[]]
    | h :: t => if x = c then [] :: h :: t else (x :: h) :: t

/-- Fields of `symbol.split('-')`, as strings. -/
def pySplitDash (s : String) : List String :=
  (splitOnChar (Char.ofNat 45) s.data).map String.mk

/-- Python `str.isdigit()` restricted to ASCII data: nonempty and all digits. -/
def pyIsDigit (s : String) : Bool := !s.data.isEmpty && s.data.all Char.isDigit

/-- Decimal value of a digit string, as produced by Python `int(part)`. -/
def strToNat (s : String) : ℕ := s.data.foldl (fun n c => n * 10 + (c.toNat - 48)) 0

/-- `extract_strike`: split the symbol on `-` and return `int(part)` for the
first part that `isdigit()` and has length `> 2`; `0` when none matches. -/
def extract_strike (symbol : String) : ℕ :=
  match (pySplitDash symbol).find? (fun p => pyIsDigit p && p.data.length > 2) with
  | some p => strToNat p
  | none => 0

/-- `extract_expiry_from_symbol`: `parts[3]` when the symbol has at least four
`-`-separated fields, else `None`. -/
def extract_expiry_from_symbol (symbol : String) : Option String :=
  let parts := pySplitDash symbol
  if parts.length ≥ 4 then parts[3]? else none

/-- Substring containment on character lists, by sliding a prefix test. -/
def listContainsSub (sub : List Char) : List Char → Bool
  | [] => sub.isEmpty
  | x :: xs => sub.isPrefixOf (x :: xs) || listContainsSub sub xs

/-- Python substring test `sub in s`. -/
def strContains (s sub : String) : Bool := listContainsSub sub.data s.data

/-! Alert cooldown ledger (`self.last_alert_time` and `can_alert`). -/

/-- The option kind distinguished by the scan (`C-` versus `P-` symbols). -/
inductive Side where
  | call
  | put
deriving DecidableEq, Repr

/-- Structured form of the f-string alert keys: BTC builds
`f"BTC_{SIDE}_{strike1}_{strike2}"` (no expiry, modelled with `expiry = ""`),
ETH builds `f"ETH_{SIDE}_{strike1}_{strike2}_{active_expiry}"`.  Distinct key
tuples render to distinct strings, so key equality is preserved. -/
structure AlertKey where
  side : Side
  strike1 : ℕ
  strike2 : ℕ
  expiry : String
deriving DecidableEq, Repr

/-- The cooldown ledger `self.last_alert_time`: alert key to the timestamp it
last fired, with `.get(alert_key, 0)` defaulting to `0`. -/
abbrev Ledger := List (AlertKey × ℚ)

/-- Dict read `self.last_alert_time.get(alert_key, 0)`. -/
def ledgerLookup : Ledger → AlertKey → ℚ
  | [], _ => 0
  | (k, t) :: rest, key => if k = key then t else ledgerLookup rest key

/-- Dict write `self.last_alert_time[alert_key] = now`.  Prepending preserves
the lookup semantics of in-place update. -/
def ledgerSet (L : Ledger) (key : AlertKey) (t : ℚ) : Ledger := (key, t) :: L

/-- `can_alert` (identical in both bot classes): fire and stamp the ledger when
`now - last_time >= ALERT_COOLDOWN`, else refuse and leave it unchanged. -/
def can_alert (now : ℚ) (L : Ledger) (key : AlertKey) : Bool × Ledger :=
  if ALERT_COOLDOWN ≤ now - ledgerLookup L key then (true, ledgerSet L key now)
  else (false, L)

/-! The strike ladder and the adjacent-pair scan
(`BTCRESTBot.check_arbitrage` and the loop of
`ETHWebSocketBot.check_arbitrage_same_expiry`; the two bodies differ only in
threshold, alert-key shape and message prefix). -/

/-- One side of a ladder entry: the `{'bid':…, 'ask':…, 'symbol':…}` dict,
with the `{}`-with-`.get`-defaults case represented by the zero quote. -/
structure SideQuote where
  bid : ℚ := 0
  ask : ℚ := 0
  symbol : String := ""
deriving DecidableEq, Repr

/-- A strike's ladder entry `{'call': …, 'put': …}`. -/
structure StrikeEntry where
  call : SideQuote := {}
  put : SideQuote := {}
deriving DecidableEq, Repr

/-- The fields interpolated into a qualifying pair's `alert_msg`. -/
structure Opportunity where
  side : Side
  strike1 : ℕ
  strike2 : ℕ
  price1 : ℚ
  price2 : ℚ
  profit : ℚ
  quantity : ℚ
deriving DecidableEq, Repr

/-- The alert key a scan with the given expiry tag uses for an opportunity. -/
def oppKey (expiry : String) (o : Opportunity) : AlertKey :=
  ⟨o.side, o.strike1, o.strike2, expiry⟩

/-- The CALL-arbitrage block of the pair loop: with `call1_ask > 0`,
`call2_bid > 0` and a truthy `call1_symbol`, when
`call_diff = call1_ask - call2_bid < 0`, `|call_diff| ≥ θ` and the resting ask
quantity exceeds 5 lots, fire through `can_alert` and append the alert. -/
def check_call_pair (θ : ℚ) (qty : String → ℚ) (now : ℚ) (expiry : String)
    (g : ℕ → StrikeEntry) (s1 s2 : ℕ) (st : Ledger × List Opportunity) :
    Ledger × List Opportunity :=
  if (g s1).call.ask > 0 ∧ (g s2).call.bid > 0 ∧ (g s1).call.symbol ≠ "" then
    if (g s1).call.ask - (g s2).call.bid < 0 ∧
        |(g s1).call.ask - (g s2).call.bid| ≥ θ ∧ qty (g s1).call.symbol > 5 then
      if (can_alert now st.1 ⟨Side.call, s1, s2, expiry⟩).1 then
        ((can_alert now st.1 ⟨Side.call, s1, s2, expiry⟩).2,
         st.2 ++ [⟨Side.call, s1, s2, (g s1).call.ask, (g s2).call.bid,
           |(g s1).call.ask - (g s2).call.bid|, qty (g s1).call.symbol⟩])
      else ((can_alert now st.1 ⟨Side.call, s1, s2, expiry⟩).2, st.2)
    else st
  else st

/-- The PUT-arbitrage block of the pair loop: mirror of the call block on
`put2_ask`, `put1_bid` and `put2_symbol`. -/
def check_put_pair (θ : ℚ) (qty : String → ℚ) (now : ℚ) (expiry : String)
    (g : ℕ → StrikeEntry) (s1 s2 : ℕ) (st : Ledger × List Opportunity) :
    Ledger × List Opportunity :=
  if (g s1).put.bid > 0 ∧ (g s2).put.ask > 0 ∧ (g s2).put.symbol ≠ "" then
    if (g s2).put.ask - (g s1).put.bid < 0 ∧
        |(g s2).put.ask - (g s1).put.bid| ≥ θ ∧ qty (g s2).put.symbol > 5 then
      if (can_alert now st.1 ⟨Side.put, s1, s2, expiry⟩).1 then
        ((can_alert now st.1 ⟨Side.put, s1, s2, expiry⟩).2,
         st.2 ++ [⟨Side.put, s1, s2, (g s2).put.ask, (g s1).put.bid,
           |(g s2).put.ask - (g s1).put.bid|, qty (g s2).put.symbol⟩])
      else ((can_alert now st.1 ⟨Side.put, s1, s2, expiry⟩).2, st.2)
    else st
  else st

/-- Both blocks of one iteration of the pair loop, call check then put check. -/
def check_pair (θ : ℚ) (qty : String → ℚ) (now : ℚ) (expiry : String)
    (g : ℕ → StrikeEntry) (s1 s2 : ℕ) (st : Ledger × List Opportunity) :
    Ledger × List Opportunity :=
  check_put_pair θ qty now expiry g s1 s2 (check_call_pair θ qty now expiry g s1 s2 st)

/-- The pairs visited by `for i in range(len(strikes) - 1)` with
`strike1 = strikes[i]`, `strike2 = strikes[i + 1]`. -/
def adjacentPairs : List ℕ → List (ℕ × ℕ)
  | a :: b :: rest => (a, b) :: adjacentPairs (b :: rest)
  | _ => []

/-- The pair loop itself: visit the adjacent pairs in order, threading the
cooldown ledger and accumulating the `alerts` list. -/
def scan_pairs (θ : ℚ) (qty : String → ℚ) (now : ℚ) (expiry : String)
    (g : ℕ → StrikeEntry) : List (ℕ × ℕ) → Ledger → Ledger × List Opportunity
  | [], L => (L, [])
  | (s1, s2) :: ps, L =>
    ((scan_pairs θ qty now expiry g ps
        (check_pair θ qty now expiry g s1 s2 (L, [])).1).1,
     (check_pair θ qty now expiry g s1 s2 (L, [])).2 ++
       (scan_pairs θ qty now expiry g ps
         (check_pair θ qty now expiry g s1 s2 (L, [])).1).2)

/-- The grouped ladder `grouped_data` / `strikes`: strike to entry. -/
abbrev Grouped := List (ℕ × StrikeEntry)

/-- Dict read `grouped_data[strike]`, the default entry standing for the
missing-key case (the code only reads keys it inserted). -/
def groupedLookup : Grouped → ℕ → StrikeEntry
  | [], _ => {}
  | (k, e) :: rest, s => if k = s then e else groupedLookup rest s

/-- Dict write `strikes[strike] = entry`, preserving insertion order and
key distinctness. -/
def groupedSet : Grouped → ℕ → StrikeEntry → Grouped
  | [], s, e => [(s, e)]
  | (k, v) :: rest, s, e =>
    if k = s then (s, e) :: rest else (k, v) :: groupedSet rest s e

/-- `sorted(grouped_data.keys())`. -/
def groupedStrikes (grouped : Grouped) : List ℕ :=
  (grouped.map Prod.fst).insertionSort (· ≤ ·)

/-- `BTCRESTBot.check_arbitrage`: `[]` for an empty group, else the pair loop
over the ascending strikes.  The second component is the returned `alerts`
list; the first is the cooldown ledger after the scan. -/
def check_arbitrage (θ : ℚ) (qty : String → ℚ) (now : ℚ) (expiry : String)
    (grouped : Grouped) (L : Ledger) : Ledger × List Opportunity :=
  if grouped.isEmpty then (L, [])
  else scan_pairs θ qty now expiry (groupedLookup grouped)
    (adjacentPairs (groupedStrikes grouped)) L

/-! The ETH pipeline (`check_arbitrage_opportunities` feeding
`check_arbitrage_same_expiry`), and the ETH quote store. -/

/-- One element of the `eth_options` list handed to
`check_arbitrage_same_expiry`. -/
structure OptionData where
  symbol : String
  bid : ℚ
  ask : ℚ
deriving DecidableEq, Repr

/-- One iteration of the ladder-building loop of
`check_arbitrage_same_expiry`: skip unless `extract_strike > 0`, create the
strike's entry when absent, then fill the call slot when the symbol contains
`C-`, else the put slot when it contains `P-`. -/
def insert_option (strikes : Grouped) (o : OptionData) : Grouped :=
  let strike := extract_strike o.symbol
  if strike > 0 then
    let e := groupedLookup strikes strike
    if strContains o.symbol "C-" then
      groupedSet strikes strike { e with call := ⟨o.bid, o.ask, o.symbol⟩ }
    else if strContains o.symbol "P-" then
      groupedSet strikes strike { e with put := ⟨o.bid, o.ask, o.symbol⟩ }
    else groupedSet strikes strike e
  else strikes

/-- The ladder-building loop of `check_arbitrage_same_expiry`. -/
def build_strikes (options : List OptionData) : Grouped :=
  options.foldl insert_option []

/-- `ETHWebSocketBot.check_arbitrage_same_expiry`: build the ladder, return
with nothing when fewer than two strikes, else run the pair loop with the ETH
threshold and expiry-tagged keys. -/
def check_arbitrage_same_expiry (qty : String → ℚ) (now : ℚ) (expiry : String)
    (options : List OptionData) (L : Ledger) : Ledger × List Opportunity :=
  let strikes := build_strikes options
  let sorted := groupedStrikes strikes
  if sorted.length < 2 then (L, [])
  else scan_pairs DELTA_THRESHOLD_ETH qty now expiry (groupedLookup strikes)
    (adjacentPairs sorted) L

/-- The quote store `self.options_prices`: symbol to its latest quote dict. -/
abbrev Store := List (String × SideQuote)

/-- Dict write `self.options_prices[symbol] = {...}`. -/
def storeSet : Store → String → SideQuote → Store
  | [], sym, q => [(sym, q)]
  | (k, v) :: rest, sym, q =>
    if k = sym then (sym, q) :: rest else (k, v) :: storeSet rest sym q

/-- Dict read `self.options_prices.get(symbol)`. -/
def storeLookup : Store → String → Option SideQuote
  | [], _ => none
  | (k, v) :: rest, sym => if k = sym then some v else storeLookup rest sym

/-- `ETHWebSocketBot.check_arbitrage_opportunities`: return with nothing when
the store holds fewer than 10 symbols, else collect the `ETH` symbols into
`eth_options` and, when that list is nonempty, run
`check_arbitrage_same_expiry` on it. -/
def check_arbitrage_opportunities (qty : String → ℚ) (now : ℚ) (expiry : String)
    (store : Store) (L : Ledger) : Ledger × List Opportunity :=
  if store.length < 10 then (L, [])
  else
    let ethOptions := (store.filter fun p => strContains p.1 "ETH").map
      fun p => OptionData.mk p.1 p.2.bid p.2.ask
    if ethOptions.isEmpty then (L, [])
    else check_arbitrage_same_expiry qty now expiry ethOptions L

/-- A `l1_orderbook` message, reduced to the fields the handler reads; the
prices carry `None` for absent fields (the falsy-number case
`float(best_bid) if best_bid else 0` maps `0` to `0` and is the identity on
rationals). -/
structure L1Message where
  symbol : Option String
  best_bid : Option ℚ
  best_ask : Option ℚ

/-- `ETHWebSocketBot.process_l1_orderbook_data`: drop the update when a field
is missing, the symbol is falsy or lacks `ETH`, or the symbol's expiry differs
from the active one; otherwise store the quote unconditionally. -/
def process_l1_orderbook_data (activeExpiry : String) (store : Store)
    (m : L1Message) : Store :=
  match m.symbol, m.best_bid, m.best_ask with
  | some sym, some b, some a =>
    if sym = "" then store
    else if !strContains sym "ETH" then store
    else if extract_expiry_from_symbol sym ≠ some activeExpiry then store
    else storeSet store sym ⟨b, a, sym⟩
  | _, _, _ => store

/-- The alert dispatch loop (`if alerts: for alert in alerts:
send_telegram(alert)` in `check_arbitrage_same_expiry`, likewise in
`BTCRESTBot.start_monitoring`): the list of sink messages sent for one scan,
one `send_telegram` call per element. -/
def dispatch_alerts (alerts : List Opportunity) : List Opportunity :=
  if alerts.isEmpty then [] else alerts

/-! Expiry reconciliation (`get_next_available_expiry`, identical in both bot
classes up to the asset). -/

/-- Lexicographic comparison of character lists by code point, the order
Python's `<` uses on the expiry strings. -/
def listLexLt : List Char → List Char → Bool
  | [], [] => false
  | [], _ :: _ => true
  | _ :: _, [] => false
  | a :: as, b :: bs =>
    if a.toNat < b.toNat then true
    else if b.toNat < a.toNat then false
    else listLexLt as bs

/-- Python string comparison `s < t`. -/
def strLtB (s t : String) : Bool := listLexLt s.data t.data

/-- `get_next_available_expiry`: keep the candidate when the listing is empty,
else return the first listed expiry lexicographically greater than the
candidate (`expiry > current_expiry`), falling back to the last listed expiry
(`available_expiries[-1]`). -/
def get_next_available_expiry (current : String) (available : List String) :
    String :=
  if available.isEmpty then current
  else
    match available.find? fun e => strLtB current e with
    | some e => e
    | none => available.getLastD current

/-! The spike detector's rolling history (`check_premium_spikes_eth` /
`check_premium_spikes_btc`, identical bodies). -/

/-- One history update: `price_history[symbol].append(current_bid)` followed
by trimming to the last 10 entries. -/
def update_price_history (h : List ℚ) (price : ℚ) : List ℚ :=
  let h2 := h ++ [price]
  if h2.length > 10 then h2.drop (h2.length - 10) else h2

/-- The spike baseline `sum(price_history[symbol][:-1]) /
(len(price_history[symbol]) - 1)`, computed once the history has at least 5
entries. -/
def historical_avg (h : List ℚ) : ℚ := h.dropLast.sum / ((h.length - 1 : ℕ) : ℚ)

/-- Selector for the call opportunities a scan emitted for one strike pair. -/
def isCallFor (s1 s2 : ℕ) (o : Opportunity) : Bool :=
  decide (o.side = Side.call) && decide (o.strike1 = s1) && decide (o.strike2 = s2)

/-! Concrete example data used by counterexamples and witnesses. -/

/-- A two-strike BTC ladder whose adjacent call quotes violate the
no-arbitrage bound by 3 (ask 10 at strike 100 against bid 13 at strike 110). -/
def exGrouped : Grouped :=
  [(100, { call := ⟨0, 10, "C-BTC-100-191025"⟩ }),
   (110, { call := ⟨13, 0, "C-BTC-110-191025"⟩ })]

/-- A second two-strike BTC ladder, on different strikes. -/
def exGrouped2 : Grouped :=
  [(200, { call := ⟨0, 10, "C-BTC-200-191025"⟩ }),
   (210, { call := ⟨13, 0, "C-BTC-210-191025"⟩ })]

/-- A two-strike BTC ladder with both a call and a put violation on the same
adjacent pair. -/
def exGrouped9 : Grouped :=
  [(100, { call := ⟨0, 10, "C-BTC-100-191025"⟩, put := ⟨13, 0, "P-BTC-100-191025"⟩ }),
   (110, { call := ⟨13, 0, "C-BTC-110-191025"⟩, put := ⟨0, 10, "P-BTC-110-191025"⟩ })]

/-- An ETH quote store holding four symbols that form two populated strikes
with a qualifying call violation (3 ≥ 0.16). -/
def exStoreC7 : Store :=
  [("C-ETH-3000-191025", ⟨0, 10, "C-ETH-3000-191025"⟩),
   ("C-ETH-3100-191025", ⟨13, 0, "C-ETH-3100-191025"⟩),
   ("P-ETH-3000-191025", ⟨0, 0, "P-ETH-3000-191025"⟩),
   ("P-ETH-3100-191025", ⟨0, 0, "P-ETH-3100-191025"⟩)]

/-- The `eth_options` list `check_arbitrage_opportunities` builds from
`exStoreC7`. -/
def exOptsC7 : List OptionData :=
  (exStoreC7.filter fun p => strContains p.1 "ETH").map
    fun p => OptionData.mk p.1 p.2.bid p.2.ask

/-! Helper lemmas. -/

/-- Rewriting aid for evaluating ledger lookups on concrete keys. -/
theorem side_call_eq_put : (Side.call = Side.put) = False :=
  eq_false fun h => Side.noConfusion h

/-- Rewriting aid for evaluating ledger lookups on concrete keys. -/
theorem side_put_eq_call : (Side.put = Side.call) = False :=
  eq_false fun h => Side.noConfusion h

/-- Writing a quote and reading it back at the same symbol. -/
theorem storeLookup_storeSet (store : Store) (sym : String) (q : SideQuote) :
    storeLookup (storeSet store sym q) sym = some q := by
  induction store with
  | nil => simp [storeSet, storeLookup]
  | cons kv rest ih =>
    obtain ⟨k, v⟩ := kv
    by_cases hk : k = sym <;> simp [storeSet, storeLookup, hk, ih]

/-- Positivity of the cooldown window. -/
theorem alert_cooldown_pos : 0 < ALERT_COOLDOWN := by norm_num [ALERT_COOLDOWN]

/-- Reading back the key just written to the ledger. -/
theorem ledgerLookup_set_same (L : Ledger) (key : AlertKey) (t : ℚ) :
    ledgerLookup (ledgerSet L key t) key = t := by
  simp [ledgerSet, ledgerLookup]

/-- Writing one ledger key leaves every other key's value unchanged. -/
theorem ledgerLookup_set_ne (L : Ledger) (key k : AlertKey) (t : ℚ)
    (hk : k ≠ key) : ledgerLookup (ledgerSet L key t) k = ledgerLookup L k := by
  simp [ledgerSet, ledgerLookup, Ne.symm hk]

/-- A fired `can_alert` certifies that the key's cooldown had elapsed. -/
theorem can_alert_fired {now : ℚ} {L : Ledger} {key : AlertKey}
    (h : (can_alert now L key).1 = true) :
    ALERT_COOLDOWN ≤ now - ledgerLookup L key := by
  by_cases hc : ALERT_COOLDOWN ≤ now - ledgerLookup L key
  · exact hc
  · unfold can_alert at h
    rw [if_neg hc] at h
    exact absurd h (by simp)

/-- A fired `can_alert` stamps the key with the current timestamp. -/
theorem can_alert_snd_of_fired {now : ℚ} {L : Ledger} {key : AlertKey}
    (h : (can_alert now L key).1 = true) :
    (can_alert now L key).2 = ledgerSet L key now := by
  by_cases hc : ALERT_COOLDOWN ≤ now - ledgerLookup L key
  · unfold can_alert
    rw [if_pos hc]
  · unfold can_alert at h
    rw [if_neg hc] at h
    exact absurd h (by simp)

/-- A refused `can_alert` leaves the ledger unchanged. -/
theorem can_alert_snd_of_refused {now : ℚ} {L : Ledger} {key : AlertKey}
    (h : ¬(can_alert now L key).1 = true) : (can_alert now L key).2 = L := by
  by_cases hc : ALERT_COOLDOWN ≤ now - ledgerLookup L key
  · unfold can_alert at h
    rw [if_pos hc] at h
    exact absurd rfl h
  · unfold can_alert
    rw [if_neg hc]

/-- The opportunities appended by the call block carry exactly the processed
pair, and an append only happens when the pair's key cleared its cooldown. -/
theorem check_call_pair_shape (θ : ℚ) (qty : String → ℚ) (now : ℚ)
    (expiry : String) (g : ℕ → StrikeEntry) (s1 s2 : ℕ)
    (st : Ledger × List Opportunity) :
    ∃ t, (check_call_pair θ qty now expiry g s1 s2 st).2 = st.2 ++ t ∧
      ∀ o ∈ t, o.side = Side.call ∧ o.strike1 = s1 ∧ o.strike2 = s2 ∧
        ALERT_COOLDOWN ≤ now - ledgerLookup st.1 (oppKey expiry o) ∧
        ledgerLookup (check_call_pair θ qty now expiry g s1 s2 st).1
          (oppKey expiry o) = now := by
  unfold check_call_pair
  split
  · split
    · split
      · next hca =>
        refine ⟨_, rfl, ?_⟩
        intro o ho
        simp only [List.mem_singleton] at ho
        subst ho
        refine ⟨rfl, rfl, rfl, can_alert_fired hca, ?_⟩
        dsimp only
        rw [can_alert_snd_of_fired hca]
        exact ledgerLookup_set_same _ _ _
      · exact ⟨[], (List.append_nil _).symm, by simp⟩
    · exact ⟨[], (List.append_nil _).symm, by simp⟩
  · exact ⟨[], (List.append_nil _).symm, by simp⟩

/-- Mirror of `check_call_pair_shape` for the put block. -/
theorem check_put_pair_shape (θ : ℚ) (qty : String → ℚ) (now : ℚ)
    (expiry : String) (g : ℕ → StrikeEntry) (s1 s2 : ℕ)
    (st : Ledger × List Opportunity) :
    ∃ t, (check_put_pair θ qty now expiry g s1 s2 st).2 = st.2 ++ t ∧
      ∀ o ∈ t, o.side = Side.put ∧ o.strike1 = s1 ∧ o.strike2 = s2 ∧
        ALERT_COOLDOWN ≤ now - ledgerLookup st.1 (oppKey expiry o) ∧
        ledgerLookup (check_put_pair θ qty now expiry g s1 s2 st).1
          (oppKey expiry o) = now := by
  unfold check_put_pair
  split
  · split
    · split
      · next hca =>
        refine ⟨_, rfl, ?_⟩
        intro o ho
        simp only [List.mem_singleton] at ho
        subst ho
        refine ⟨rfl, rfl, rfl, can_alert_fired hca, ?_⟩
        dsimp only
        rw [can_alert_snd_of_fired hca]
        exact ledgerLookup_set_same _ _ _
      · exact ⟨[], (List.append_nil _).symm, by simp⟩
    · exact ⟨[], (List.append_nil _).symm, by simp⟩
  · exact ⟨[], (List.append_nil _).symm, by simp⟩

/-- After the call block, a key's ledger value is unchanged unless it is the
processed pair's call key, which may have been stamped to `now`. -/
theorem check_call_pair_ledger (θ : ℚ) (qty : String → ℚ) (now : ℚ)
    (expiry : String) (g : ℕ → StrikeEntry) (s1 s2 : ℕ)
    (st : Ledger × List Opportunity) (k : AlertKey) :
    ledgerLookup (check_call_pair θ qty now expiry g s1 s2 st).1 k =
        ledgerLookup st.1 k ∨
      (k = ⟨Side.call, s1, s2, expiry⟩ ∧
        ledgerLookup (check_call_pair θ qty now expiry g s1 s2 st).1 k = now) := by
  unfold check_call_pair
  split
  · split
    · split
      · next hca =>
        dsimp only
        rw [can_alert_snd_of_fired hca]
        by_cases hk : k = ⟨Side.call, s1, s2, expiry⟩
        · subst hk
          exact Or.inr ⟨rfl, ledgerLookup_set_same _ _ _⟩
        · exact Or.inl (ledgerLookup_set_ne _ _ _ _ hk)
      · next hca =>
        dsimp only
        rw [can_alert_snd_of_refused hca]
        exact Or.inl rfl
    · exact Or.inl rfl
  · exact Or.inl rfl

/-- Mirror of `check_call_pair_ledger` for the put block. -/
theorem check_put_pair_ledger (θ : ℚ) (qty : String → ℚ) (now : ℚ)
    (expiry : String) (g : ℕ → StrikeEntry) (s1 s2 : ℕ)
    (st : Ledger × List Opportunity) (k : AlertKey) :
    ledgerLookup (check_put_pair θ qty now expiry g s1 s2 st).1 k =
        ledgerLookup st.1 k ∨
      (k = ⟨Side.put, s1, s2, expiry⟩ ∧
        ledgerLookup (check_put_pair θ qty now expiry g s1 s2 st).1 k = now) := by
  unfold check_put_pair
  split
  · split
    · split
      · next hca =>
        dsimp only
        rw [can_alert_snd_of_fired hca]
        by_cases hk : k = ⟨Side.put, s1, s2, expiry⟩
        · subst hk
          exact Or.inr ⟨rfl, ledgerLookup_set_same _ _ _⟩
        · exact Or.inl (ledgerLookup_set_ne _ _ _ _ hk)
      · next hca =>
        dsimp only
        rw [can_alert_snd_of_refused hca]
        exact Or.inl rfl
    · exact Or.inl rfl
  · exact Or.inl rfl

/-- Combined shape of one pair-loop iteration: the appended opportunities
carry the processed pair, each cleared its key's cooldown against the incoming
ledger, and each left its key stamped with `now`. -/
theorem check_pair_shape (θ : ℚ) (qty : String → ℚ) (now : ℚ) (expiry : String)
    (g : ℕ → StrikeEntry) (s1 s2 : ℕ) (st : Ledger × List Opportunity) :
    ∃ t, (check_pair θ qty now expiry g s1 s2 st).2 = st.2 ++ t ∧
      ∀ o ∈ t, o.strike1 = s1 ∧ o.strike2 = s2 ∧
        ALERT_COOLDOWN ≤ now - ledgerLookup st.1 (oppKey expiry o) ∧
        ledgerLookup (check_pair θ qty now expiry g s1 s2 st).1
          (oppKey expiry o) = now := by
  obtain ⟨t1, h1, hp1⟩ := check_call_pair_shape θ qty now expiry g s1 s2 st
  obtain ⟨t2, h2, hp2⟩ := check_put_pair_shape θ qty now expiry g s1 s2
    (check_call_pair θ qty now expiry g s1 s2 st)
  refine ⟨t1 ++ t2, ?_, ?_⟩
  · unfold check_pair
    rw [h2, h1, List.append_assoc]
  · intro o ho
    rcases List.mem_append.mp ho with ho1 | ho2
    · obtain ⟨hside, hs1, hs2, hcd, hstamp⟩ := hp1 o ho1
      refine ⟨hs1, hs2, hcd, ?_⟩
      have hkey : oppKey expiry o ≠ (⟨Side.put, s1, s2, expiry⟩ : AlertKey) := by
        simp [oppKey, AlertKey.mk.injEq, hside, side_call_eq_put]
      unfold check_pair
      rcases check_put_pair_ledger θ qty now expiry g s1 s2
          (check_call_pair θ qty now expiry g s1 s2 st) (oppKey expiry o) with
        hp | ⟨hk, _⟩
      · rw [hp]
        exact hstamp
      · exact absurd hk hkey
    · obtain ⟨hside, hs1, hs2, hcd, hstamp⟩ := hp2 o ho2
      have hkey : oppKey expiry o ≠ (⟨Side.call, s1, s2, expiry⟩ : AlertKey) := by
        simp [oppKey, AlertKey.mk.injEq, hside, side_put_eq_call]
      refine ⟨hs1, hs2, ?_, hstamp⟩
      rcases check_call_pair_ledger θ qty now expiry g s1 s2 st (oppKey expiry o)
        with hp | ⟨hk, _⟩
      · rw [hp] at hcd
        exact hcd
      · exact absurd hk hkey

/-- One pair-loop iteration changes a key's ledger value only by stamping it
to `now`. -/
theorem check_pair_ledger_or (θ : ℚ) (qty : String → ℚ) (now : ℚ)
    (expiry : String) (g : ℕ → StrikeEntry) (s1 s2 : ℕ)
    (st : Ledger × List Opportunity) (k : AlertKey) :
    ledgerLookup (check_pair θ qty now expiry g s1 s2 st).1 k =
        ledgerLookup st.1 k ∨
      ledgerLookup (check_pair θ qty now expiry g s1 s2 st).1 k = now := by
  unfold check_pair
  rcases check_put_pair_ledger θ qty now expiry g s1 s2
      (check_call_pair θ qty now expiry g s1 s2 st) k with h | ⟨_, h⟩
  · rw [h]
    rcases check_call_pair_ledger θ qty now expiry g s1 s2 st k with h2 | ⟨_, h2⟩
    · exact Or.inl h2
    · exact Or.inr h2
  · exact Or.inr h

/-- One pair-loop iteration leaves every key of a different pair unchanged. -/
theorem check_pair_ledger_ne (θ : ℚ) (qty : String → ℚ) (now : ℚ)
    (expiry : String) (g : ℕ → StrikeEntry) (s1 s2 : ℕ)
    (st : Ledger × List Opportunity) (k : AlertKey)
    (hk1 : k ≠ ⟨Side.call, s1, s2, expiry⟩)
    (hk2 : k ≠ ⟨Side.put, s1, s2, expiry⟩) :
    ledgerLookup (check_pair θ qty now expiry g s1 s2 st).1 k =
      ledgerLookup st.1 k := by
  unfold check_pair
  rcases check_put_pair_ledger θ qty now expiry g s1 s2
      (check_call_pair θ qty now expiry g s1 s2 st) k with h | ⟨hk, _⟩
  · rw [h]
    rcases check_call_pair_ledger θ qty now expiry g s1 s2 st k with h2 | ⟨hk', _⟩
    · exact h2
    · exact absurd hk' hk1
  · exact absurd hk hk2

/-- An opportunity emitted by one pair-loop iteration is inherited or leaves
its key stamped with `now`. -/
theorem check_pair_stamped {θ : ℚ} {qty : String → ℚ} {now : ℚ}
    {expiry : String} {g : ℕ → StrikeEntry} {s1 s2 : ℕ}
    {st : Ledger × List Opportunity} {o : Opportunity}
    (h : o ∈ (check_pair θ qty now expiry g s1 s2 st).2) :
    o ∈ st.2 ∨
      ledgerLookup (check_pair θ qty now expiry g s1 s2 st).1
        (oppKey expiry o) = now := by
  obtain ⟨t, ht, hp⟩ := check_pair_shape θ qty now expiry g s1 s2 st
  rw [ht] at h
  rcases List.mem_append.mp h with h1 | h2
  · exact Or.inl h1
  · exact Or.inr (hp o h2).2.2.2

/-- The pair loop changes a key's ledger value only by stamping it to `now`. -/
theorem scan_pairs_ledger_or (θ : ℚ) (qty : String → ℚ) (now : ℚ)
    (expiry : String) (g : ℕ → StrikeEntry) (ps : List (ℕ × ℕ)) (L : Ledger)
    (k : AlertKey) :
    ledgerLookup (scan_pairs θ qty now expiry g ps L).1 k = ledgerLookup L k ∨
      ledgerLookup (scan_pairs θ qty now expiry g ps L).1 k = now := by
  induction ps generalizing L with
  | nil => exact Or.inl rfl
  | cons p ps ih =>
    obtain ⟨s1, s2⟩ := p
    simp only [scan_pairs]
    rcases ih (check_pair θ qty now expiry g s1 s2 (L, [])).1 with h | h
    · rw [h]
      rcases check_pair_ledger_or θ qty now expiry g s1 s2 (L, []) k with h2 | h2
      · exact Or.inl h2
      · exact Or.inr h2
    · exact Or.inr h

/-- Every opportunity the pair loop emits carries one of the visited pairs. -/
theorem scan_pairs_mem_pairs {θ : ℚ} {qty : String → ℚ} {now : ℚ}
    {expiry : String} {g : ℕ → StrikeEntry} {ps : List (ℕ × ℕ)} {L : Ledger}
    {o : Opportunity} (h : o ∈ (scan_pairs θ qty now expiry g ps L).2) :
    (o.strike1, o.strike2) ∈ ps := by
  induction ps generalizing L with
  | nil => simp [scan_pairs] at h
  | cons p ps ih =>
    obtain ⟨s1, s2⟩ := p
    simp only [scan_pairs] at h
    rcases List.mem_append.mp h with h1 | h2
    · obtain ⟨t, ht, hp⟩ := check_pair_shape θ qty now expiry g s1 s2 (L, [])
      rw [ht] at h1
      rcases List.mem_append.mp h1 with h0 | h0
      · simp at h0
      · obtain ⟨hs1, hs2, _⟩ := hp o h0
        rw [hs1, hs2]
        exact List.mem_cons_self _ _
    · exact List.mem_cons_of_mem _ (ih h2)

/-- Every opportunity the pair loop emits had cleared its key's cooldown
against the ledger the scan started from. -/
theorem scan_pairs_cooldown {θ : ℚ} {qty : String → ℚ} {now : ℚ}
    {expiry : String} {g : ℕ → StrikeEntry} {ps : List (ℕ × ℕ)} {L : Ledger}
    {o : Opportunity} (h : o ∈ (scan_pairs θ qty now expiry g ps L).2) :
    ALERT_COOLDOWN ≤ now - ledgerLookup L (oppKey expiry o) := by
  induction ps generalizing L with
  | nil => simp [scan_pairs] at h
  | cons p ps ih =>
    obtain ⟨s1, s2⟩ := p
    simp only [scan_pairs] at h
    rcases List.mem_append.mp h with h1 | h2
    · obtain ⟨t, ht, hp⟩ := check_pair_shape θ qty now expiry g s1 s2 (L, [])
      rw [ht] at h1
      rcases List.mem_append.mp h1 with h0 | h0
      · simp at h0
      · exact (hp o h0).2.2.1
    · have hih := ih h2
      rcases check_pair_ledger_or θ qty now expiry g s1 s2 (L, [])
          (oppKey expiry o) with he | he
      · rw [he] at hih
        exact hih
      · rw [he] at hih
        have hpos := alert_cooldown_pos
        linarith

/-- Every opportunity the pair loop emits leaves its key stamped with the
scan's timestamp in the final ledger. -/
theorem scan_pairs_stamped {θ : ℚ} {qty : String → ℚ} {now : ℚ}
    {expiry : String} {g : ℕ → StrikeEntry} {ps : List (ℕ × ℕ)} {L : Ledger}
    {o : Opportunity} (h : o ∈ (scan_pairs θ qty now expiry g ps L).2) :
    ledgerLookup (scan_pairs θ qty now expiry g ps L).1 (oppKey expiry o) =
      now := by
  induction ps generalizing L with
  | nil => simp [scan_pairs] at h
  | cons p ps ih =>
    obtain ⟨s1, s2⟩ := p
    simp only [scan_pairs] at h ⊢
    rcases List.mem_append.mp h with h1 | h2
    · rcases check_pair_stamped h1 with h0 | h0
      · simp at h0
      · rcases scan_pairs_ledger_or θ qty now expiry g ps
            (check_pair θ qty now expiry g s1 s2 (L, [])).1 (oppKey expiry o)
          with he | he
        · rw [he]
          exact h0
        · exact he
    · exact ih h2

/-- Lifting `scan_pairs_cooldown` through `check_arbitrage`. -/
theorem check_arbitrage_cooldown {θ : ℚ} {qty : String → ℚ} {now : ℚ}
    {expiry : String} {grouped : Grouped} {L : Ledger} {o : Opportunity}
    (h : o ∈ (check_arbitrage θ qty now expiry grouped L).2) :
    ALERT_COOLDOWN ≤ now - ledgerLookup L (oppKey expiry o) := by
  by_cases hge : grouped.isEmpty = true
  · unfold check_arbitrage at h
    rw [if_pos hge] at h
    simp at h
  · unfold check_arbitrage at h
    rw [if_neg hge] at h
    exact scan_pairs_cooldown h

/-- Lifting `scan_pairs_stamped` through `check_arbitrage`. -/
theorem check_arbitrage_stamped {θ : ℚ} {qty : String → ℚ} {now : ℚ}
    {expiry : String} {grouped : Grouped} {L : Ledger} {o : Opportunity}
    (h : o ∈ (check_arbitrage θ qty now expiry grouped L).2) :
    ledgerLookup (check_arbitrage θ qty now expiry grouped L).1
      (oppKey expiry o) = now := by
  by_cases hge : grouped.isEmpty = true
  · unfold check_arbitrage at h
    rw [if_pos hge] at h
    simp at h
  · unfold check_arbitrage at h ⊢
    rw [if_neg hge] at h ⊢
    exact scan_pairs_stamped h

/-- Lifting `scan_pairs_mem_pairs` through `check_arbitrage`. -/
theorem check_arbitrage_mem_pairs {θ : ℚ} {qty : String → ℚ} {now : ℚ}
    {expiry : String} {grouped : Grouped} {L : Ledger} {o : Opportunity}
    (h : o ∈ (check_arbitrage θ qty now expiry grouped L).2) :
    (o.strike1, o.strike2) ∈ adjacentPairs (groupedStrikes grouped) := by
  by_cases hge : grouped.isEmpty = true
  · unfold check_arbitrage at h
    rw [if_pos hge] at h
    simp at h
  · unfold check_arbitrage at h
    rw [if_neg hge] at h
    exact scan_pairs_mem_pairs h

/-- When all of the call block's gates hold on a fresh iteration state, the
block fires: it stamps the pair's call key and appends exactly one call
opportunity whose edge is `bid(call, s2) - ask(call, s1)`. -/
theorem check_call_pair_fires {θ : ℚ} {qty : String → ℚ} {now : ℚ}
    {expiry : String} {g : ℕ → StrikeEntry} {s1 s2 : ℕ} {L : Ledger}
    (hask : 0 < (g s1).call.ask) (hbid : 0 < (g s2).call.bid)
    (hsym : (g s1).call.symbol ≠ "") (hθ : 0 < θ)
    (hedge : θ ≤ (g s2).call.bid - (g s1).call.ask)
    (hq : 5 < qty (g s1).call.symbol)
    (hcd : ALERT_COOLDOWN ≤ now - ledgerLookup L ⟨Side.call, s1, s2, expiry⟩) :
    check_call_pair θ qty now expiry g s1 s2 (L, []) =
      (ledgerSet L ⟨Side.call, s1, s2, expiry⟩ now,
       [⟨Side.call, s1, s2, (g s1).call.ask, (g s2).call.bid,
         (g s2).call.bid - (g s1).call.ask, qty (g s1).call.symbol⟩]) := by
  have hd : (g s1).call.ask - (g s2).call.bid < 0 := by linarith
  have habs : |(g s1).call.ask - (g s2).call.bid| =
      (g s2).call.bid - (g s1).call.ask := by
    rw [abs_of_neg hd]
    ring
  have hca : (can_alert now L ⟨Side.call, s1, s2, expiry⟩).1 = true := by
    unfold can_alert
    rw [if_pos hcd]
  have hcond2 : (g s1).call.ask - (g s2).call.bid < 0 ∧
      |(g s1).call.ask - (g s2).call.bid| ≥ θ ∧ qty (g s1).call.symbol > 5 :=
    ⟨hd, by rw [ge_iff_le, habs]; exact hedge, hq⟩
  unfold check_call_pair
  dsimp only
  rw [if_pos ⟨hask, hbid, hsym⟩, if_pos hcond2, if_pos hca,
    can_alert_snd_of_fired hca, habs, List.nil_append]

/-- Under the call block's gates, one fresh pair-loop iteration contributes
exactly one call opportunity for its pair. -/
theorem check_pair_call_filter_single {θ : ℚ} {qty : String → ℚ} {now : ℚ}
    {expiry : String} {g : ℕ → StrikeEntry} {s1 s2 : ℕ} {L : Ledger}
    (hask : 0 < (g s1).call.ask) (hbid : 0 < (g s2).call.bid)
    (hsym : (g s1).call.symbol ≠ "") (hθ : 0 < θ)
    (hedge : θ ≤ (g s2).call.bid - (g s1).call.ask)
    (hq : 5 < qty (g s1).call.symbol)
    (hcd : ALERT_COOLDOWN ≤ now - ledgerLookup L ⟨Side.call, s1, s2, expiry⟩) :
    (check_pair θ qty now expiry g s1 s2 (L, [])).2.filter (isCallFor s1 s2) =
      [⟨Side.call, s1, s2, (g s1).call.ask, (g s2).call.bid,
        (g s2).call.bid - (g s1).call.ask, qty (g s1).call.symbol⟩] := by
  unfold check_pair
  rw [check_call_pair_fires hask hbid hsym hθ hedge hq hcd]
  obtain ⟨t2, h2, hp2⟩ := check_put_pair_shape θ qty now expiry g s1 s2
    (ledgerSet L ⟨Side.call, s1, s2, expiry⟩ now,
     [⟨Side.call, s1, s2, (g s1).call.ask, (g s2).call.bid,
       (g s2).call.bid - (g s1).call.ask, qty (g s1).call.symbol⟩])
  rw [h2]
  dsimp only
  rw [List.filter_append]
  have hhead : ([(⟨Side.call, s1, s2, (g s1).call.ask, (g s2).call.bid,
      (g s2).call.bid - (g s1).call.ask, qty (g s1).call.symbol⟩ :
        Opportunity)]).filter (isCallFor s1 s2) =
      [⟨Side.call, s1, s2, (g s1).call.ask, (g s2).call.bid,
        (g s2).call.bid - (g s1).call.ask, qty (g s1).call.symbol⟩] := by
    simp [isCallFor]
  have ht2 : t2.filter (isCallFor s1 s2) = [] := by
    rw [List.filter_eq_nil_iff]
    intro o ho
    have hside := (hp2 o ho).1
    simp [isCallFor, hside, side_put_eq_call]
  rw [hhead, ht2, List.append_nil]

/-- Scanning a distinct pair list that contains an adjacent pair satisfying
all of the call block's gates emits exactly one call opportunity for that
pair, with edge `bid(call, s2) - ask(call, s1)`. -/
theorem scan_pairs_call_filter {θ : ℚ} {qty : String → ℚ} {now : ℚ}
    {expiry : String} {g : ℕ → StrikeEntry} {s1 s2 : ℕ} :
    ∀ {ps : List (ℕ × ℕ)} {L : Ledger}, (s1, s2) ∈ ps → ps.Nodup →
    0 < θ → 0 < (g s1).call.ask → 0 < (g s2).call.bid →
    (g s1).call.symbol ≠ "" →
    θ ≤ (g s2).call.bid - (g s1).call.ask →
    5 < qty (g s1).call.symbol →
    ALERT_COOLDOWN ≤ now - ledgerLookup L ⟨Side.call, s1, s2, expiry⟩ →
    (scan_pairs θ qty now expiry g ps L).2.filter (isCallFor s1 s2) =
      [⟨Side.call, s1, s2, (g s1).call.ask, (g s2).call.bid,
        (g s2).call.bid - (g s1).call.ask, qty (g s1).call.symbol⟩]
  | [], _, hmem, _, _, _, _, _, _, _, _ => absurd hmem (List.not_mem_nil _)
  | (a, b) :: ps, L, hmem, hnodup, hθ, hask, hbid, hsym, hedge, hq, hcd => by
    obtain ⟨hnotmem, hnd⟩ := List.nodup_cons.mp hnodup
    simp only [scan_pairs, List.filter_append]
    by_cases hpair : (a, b) = (s1, s2)
    · rw [Prod.mk.injEq] at hpair
      obtain ⟨rfl, rfl⟩ := hpair
      rw [check_pair_call_filter_single hask hbid hsym hθ hedge hq hcd]
      have htail : ((scan_pairs θ qty now expiry g ps
          (check_pair θ qty now expiry g a b (L, [])).1).2.filter
            (isCallFor a b)) = [] := by
        rw [List.filter_eq_nil_iff]
        intro o ho hf
        have hpairs := scan_pairs_mem_pairs ho
        simp only [isCallFor, Bool.and_eq_true, decide_eq_true_eq] at hf
        obtain ⟨⟨_, h1⟩, h2⟩ := hf
        rw [h1, h2] at hpairs
        exact hnotmem hpairs
      rw [htail, List.append_nil]
    · have hmem2 : (s1, s2) ∈ ps := by
        rcases List.mem_cons.mp hmem with heq | h
        · exact absurd heq.symm hpair
        · exact h
      have hhead : ((check_pair θ qty now expiry g a b (L, [])).2.filter
          (isCallFor s1 s2)) = [] := by
        obtain ⟨t, ht, hp⟩ := check_pair_shape θ qty now expiry g a b (L, [])
        rw [ht]
        rw [List.filter_eq_nil_iff]
        intro o ho hf
        rcases List.mem_append.mp ho with h0 | h0
        · simp at h0
        · obtain ⟨hsa, hsb, _⟩ := hp o h0
          simp only [isCallFor, Bool.and_eq_true, decide_eq_true_eq] at hf
          obtain ⟨⟨_, h1⟩, h2⟩ := hf
          refine hpair ?_
          rw [Prod.mk.injEq]
          exact ⟨by rw [← h1, hsa], by rw [← h2, hsb]⟩
      have hled : ledgerLookup (check_pair θ qty now expiry g a b (L, [])).1
          ⟨Side.call, s1, s2, expiry⟩ =
          ledgerLookup L ⟨Side.call, s1, s2, expiry⟩ := by
        apply check_pair_ledger_ne
        · intro hk
          rw [AlertKey.mk.injEq] at hk
          refine hpair ?_
          rw [Prod.mk.injEq]
          exact ⟨hk.2.1.symm, hk.2.2.1.symm⟩
        · intro hk
          rw [AlertKey.mk.injEq] at hk
          exact Side.noConfusion hk.1
      rw [hhead, List.nil_append]
      exact scan_pairs_call_filter hmem2 hnd hθ hask hbid hsym hedge hq
        (by rw [hled]; exact hcd)

/-- Both components of a visited pair come from the strike list. -/
theorem adjacentPairs_mem : ∀ {s : List ℕ} {a b : ℕ},
    (a, b) ∈ adjacentPairs s → a ∈ s ∧ b ∈ s
  | [], _, _, h => by simp [adjacentPairs] at h
  | [_], _, _, h => by simp [adjacentPairs] at h
  | x :: y :: r, a, b, h => by
    simp only [adjacentPairs] at h
    rcases List.mem_cons.mp h with heq | hmem
    · rw [Prod.mk.injEq] at heq
      obtain ⟨rfl, rfl⟩ := heq
      exact ⟨List.mem_cons_self _ _,
        List.mem_cons_of_mem _ (List.mem_cons_self _ _)⟩
    · obtain ⟨h1, h2⟩ := adjacentPairs_mem hmem
      exact ⟨List.mem_cons_of_mem _ h1, List.mem_cons_of_mem _ h2⟩

/-- In a strictly ascending strike list, every visited pair is adjacent: both
strikes occur, ascend, and no listed strike lies strictly between them. -/
theorem adjacentPairs_spec : ∀ {s : List ℕ}, s.Sorted (· < ·) → ∀ {a b : ℕ},
    (a, b) ∈ adjacentPairs s →
    a ∈ s ∧ b ∈ s ∧ a < b ∧ ∀ c ∈ s, ¬(a < c ∧ c < b)
  | [], _, _, _, h => by simp [adjacentPairs] at h
  | [_], _, _, _, h => by simp [adjacentPairs] at h
  | x :: y :: r, hs, a, b, h => by
    obtain ⟨hx, ht⟩ := List.sorted_cons.mp hs
    simp only [adjacentPairs] at h
    rcases List.mem_cons.mp h with heq | hmem
    · rw [Prod.mk.injEq] at heq
      obtain ⟨rfl, rfl⟩ := heq
      refine ⟨List.mem_cons_self _ _,
        List.mem_cons_of_mem _ (List.mem_cons_self _ _),
        hx _ (List.mem_cons_self _ _), ?_⟩
      rintro c hc ⟨hac, hcb⟩
      rcases List.mem_cons.mp hc with rfl | hc2
      · exact lt_irrefl _ hac
      rcases List.mem_cons.mp hc2 with rfl | hc3
      · exact lt_irrefl _ hcb
      · exact absurd hcb (not_lt.mpr (le_of_lt ((List.sorted_cons.mp ht).1 c hc3)))
    · obtain ⟨h1, h2, h3, h4⟩ := adjacentPairs_spec ht hmem
      refine ⟨List.mem_cons_of_mem _ h1, List.mem_cons_of_mem _ h2, h3, ?_⟩
      rintro c hc hcbet
      rcases List.mem_cons.mp hc with rfl | hc2
      · exact absurd hcbet.1 (not_lt.mpr (le_of_lt (hx a h1)))
      · exact h4 c hc2 hcbet

/-- Conversely, adjacent strikes of a strictly ascending strike list are
visited as a pair. -/
theorem adjacent_mem_adjacentPairs : ∀ {s : List ℕ}, s.Sorted (· < ·) →
    ∀ {a b : ℕ}, a ∈ s → b ∈ s → a < b → (∀ c ∈ s, ¬(a < c ∧ c < b)) →
    (a, b) ∈ adjacentPairs s
  | [], _, _, _, ha, _, _, _ => absurd ha (List.not_mem_nil _)
  | [x], _, a, b, ha, hb, hab, _ => by
    simp only [List.mem_singleton] at ha hb
    subst ha
    subst hb
    exact absurd hab (lt_irrefl _)
  | x :: y :: r, hs, a, b, ha, hb, hab, hbet => by
    obtain ⟨hx, ht⟩ := List.sorted_cons.mp hs
    simp only [adjacentPairs]
    rcases List.mem_cons.mp ha with rfl | ha2
    · rcases List.mem_cons.mp hb with rfl | hb2
      · exact absurd hab (lt_irrefl _)
      rcases List.mem_cons.mp hb2 with rfl | hb3
      · exact List.mem_cons_self _ _
      · have hxy : a < y := hx y (List.mem_cons_self _ _)
        have hyb : y < b := (List.sorted_cons.mp ht).1 b hb3
        exact absurd ⟨hxy, hyb⟩
          (hbet y (List.mem_cons_of_mem _ (List.mem_cons_self _ _)))
    · have hb2 : b ∈ y :: r := by
        rcases List.mem_cons.mp hb with rfl | hb2
        · exact absurd (lt_trans (hx a ha2) hab) (lt_irrefl _)
        · exact hb2
      exact List.mem_cons_of_mem _
        (adjacent_mem_adjacentPairs ht ha2 hb2 hab
          fun c hc => hbet c (List.mem_cons_of_mem _ hc))

/-- The visited pairs of a strictly ascending strike list are distinct. -/
theorem adjacentPairs_nodup : ∀ {s : List ℕ}, s.Sorted (· < ·) →
    (adjacentPairs s).Nodup
  | [], _ => by simp [adjacentPairs]
  | [_], _ => by simp [adjacentPairs]
  | x :: y :: r, hs => by
    obtain ⟨hx, ht⟩ := List.sorted_cons.mp hs
    simp only [adjacentPairs]
    refine List.nodup_cons.mpr ⟨?_, adjacentPairs_nodup ht⟩
    intro hmem
    exact lt_irrefl x (hx x (adjacentPairs_mem hmem).1)

/-- A strike list with fewer than two entries yields no pairs. -/
theorem adjacentPairs_short : ∀ {s : List ℕ}, s.length < 2 → adjacentPairs s = []
  | [], _ => rfl
  | [_], _ => rfl
  | _ :: _ :: r, h => by
    simp only [List.length_cons] at h
    omega

/-- A strike list with at least two entries yields a pair. -/
theorem adjacentPairs_ne_nil {s : List ℕ} (h : 2 ≤ s.length) :
    adjacentPairs s ≠ [] := by
  cases s with
  | nil => simp at h
  | cons x t =>
    cases t with
    | nil => simp at h
    | cons y r => simp [adjacentPairs]

/-- With distinct strikes, `sorted(grouped_data.keys())` ascends strictly. -/
theorem groupedStrikes_sorted_lt {grouped : Grouped}
    (h : (grouped.map Prod.fst).Nodup) :
    (groupedStrikes grouped).Sorted (· < ·) := by
  have hs : (groupedStrikes grouped).Sorted (· ≤ ·) :=
    List.sorted_insertionSort _ _
  have hn : (groupedStrikes grouped).Nodup :=
    ((List.perm_insertionSort _ _).nodup_iff).mpr h
  exact List.Sorted.lt_of_le hs hn

/-- Sorting preserves the set of strikes. -/
theorem groupedStrikes_mem {grouped : Grouped} {k : ℕ} :
    k ∈ groupedStrikes grouped ↔ k ∈ grouped.map Prod.fst :=
  (List.perm_insertionSort _ _).mem_iff

/-- The first list element satisfying `p` is, in a strictly ascending list,
below every other element satisfying `p`. -/
theorem find?_min_of_pairwise {p : String → Bool} {l : List String} {r : String}
    (hp : l.Pairwise fun x y => strLtB x y = true)
    (hf : l.find? p = some r) :
    r ∈ l ∧ p r = true ∧
      ∀ e ∈ l, p e = true → e = r ∨ strLtB r e = true := by
  induction l with
  | nil => simp at hf
  | cons x t ih =>
    rcases List.pairwise_cons.mp hp with ⟨hx, ht⟩
    by_cases hpx : p x = true
    · rw [List.find?_cons_of_pos _ hpx] at hf
      obtain rfl : x = r := by injection hf
      refine ⟨List.mem_cons_self _ _, hpx, ?_⟩
      intro e he _
      rcases List.mem_cons.mp he with rfl | he
      · exact Or.inl rfl
      · exact Or.inr (hx e he)
    · rw [List.find?_cons_of_neg _ hpx] at hf
      obtain ⟨hr, hpr, hmin⟩ := ih ht hf
      refine ⟨List.mem_cons_of_mem _ hr, hpr, ?_⟩
      intro e he hpe
      rcases List.mem_cons.mp he with rfl | he
      · exact absurd hpe hpx
      · exact hmin e he hpe

/-- The last element of a nonempty strictly ascending list is its maximum. -/
theorem getLastD_max_of_pairwise {l : List String} (hl : l ≠ []) (d : String)
    (hp : l.Pairwise fun x y => strLtB x y = true) :
    l.getLastD d ∈ l ∧
      ∀ e ∈ l, e = l.getLastD d ∨ strLtB e (l.getLastD d) = true := by
  induction l generalizing d with
  | nil => exact absurd rfl hl
  | cons x t ih =>
    rcases List.pairwise_cons.mp hp with ⟨hx, ht⟩
    cases t with
    | nil =>
      refine ⟨by simp, ?_⟩
      intro e he
      simp only [List.mem_singleton] at he
      simp [he]
    | cons y s =>
      have hrec := ih (by simp) x ht
      rw [List.getLastD_cons]
      refine ⟨List.mem_cons_of_mem _ hrec.1, ?_⟩
      intro e he
      rcases List.mem_cons.mp he with rfl | he
      · exact Or.inr (hx _ hrec.1)
      · exact hrec.2 e he

/-! Theorems for claims C2 and C3. -/

/-- Claim C2: the spec's cutover rule says the active expiry is tomorrow's
date exactly when IST local time is at or after 17:30.  The code instead
tests `hour >= 17 and minute >= 30`, which fails for every instant whose
minute is below 30 in an hour past 17. Failing input: IST 18:00 — local time
(1080 minutes) is past the 17:30 cutover (1050 minutes), yet
`get_initial_active_expiry` returns today's date and `should_rollover_expiry`
returns `None`. -/
theorem cutover_bug_at_1800 :
    1050 ≤ istMinutesOfDay ⟨100, 18, 0⟩ ∧
    get_initial_active_expiry ⟨100, 18, 0⟩ = 100 ∧
    should_rollover_expiry ⟨100, 18, 0⟩ = none := by
  refine ⟨by decide, ?_, ?_⟩ <;> simp [get_initial_active_expiry, should_rollover_expiry]

/-- Claim C3: the spec says a symbol with a non-numeric strike field, such as
`"X-BTC-abc-191025"`, yields no strike and is excluded from the ladder.  The
code's `extract_strike` instead scans all `-`-separated fields for the first
all-digit field longer than two characters and so fabricates the strike
`191025` from the expiry field. -/
theorem extract_strike_fabricates :
    extract_strike "X-BTC-abc-191025" = 191025 := by decide

/-- Claim C4, counterexample: an update with `bid = 0` (so `bid ≤ 0`) for a
well-formed active-expiry ETH symbol is not dropped — it changes the store and
the zero bid is stored. -/
theorem invalid_quote_stored_cex :
    (0 : ℚ) ≤ 0 ∧
    process_l1_orderbook_data "191025" []
        ⟨some "C-ETH-3000-191025", some 0, some 5⟩ =
      [("C-ETH-3000-191025", ⟨0, 5, "C-ETH-3000-191025"⟩)] ∧
    process_l1_orderbook_data "191025" []
        ⟨some "C-ETH-3000-191025", some 0, some 5⟩ ≠ ([] : Store) := by
  refine ⟨le_refl 0, rfl, ?_⟩
  rw [show process_l1_orderbook_data "191025" []
        ⟨some "C-ETH-3000-191025", some 0, some 5⟩ =
      [("C-ETH-3000-191025", ⟨0, 5, "C-ETH-3000-191025"⟩)] from rfl]
  simp

/-- Claim C4, amended: `process_l1_orderbook_data` stores every update whose
symbol is present, truthy, contains `ETH` and carries the active expiry —
including updates with `bid ≤ 0`, `ask ≤ 0` or `ask < bid`, which are written
to the store (and only filtered later, at detection time) rather than
dropped. -/
theorem quote_update_stores_unconditionally (expiry : String) (store : Store)
    (sym : String) (b a : ℚ) (hsym : sym ≠ "")
    (heth : strContains sym "ETH" = true)
    (hexp : extract_expiry_from_symbol sym = some expiry)
    (_hbad : b ≤ 0 ∨ a ≤ 0 ∨ a < b) :
    process_l1_orderbook_data expiry store ⟨some sym, some b, some a⟩ =
      storeSet store sym ⟨b, a, sym⟩ ∧
    storeLookup (process_l1_orderbook_data expiry store ⟨some sym, some b, some a⟩)
        sym = some ⟨b, a, sym⟩ := by
  have hstep : process_l1_orderbook_data expiry store ⟨some sym, some b, some a⟩ =
      storeSet store sym ⟨b, a, sym⟩ := by
    simp [process_l1_orderbook_data, hsym, heth, hexp]
  exact ⟨hstep, by rw [hstep]; exact storeLookup_storeSet store sym ⟨b, a, sym⟩⟩

/-- Claim C4, witness for the amended theorem at a concrete zero-bid update. -/
theorem quote_update_stores_unconditionally_witness :
    process_l1_orderbook_data "191025" []
        ⟨some "C-ETH-3000-191025", some 0, some 5⟩ =
      storeSet [] "C-ETH-3000-191025" ⟨0, 5, "C-ETH-3000-191025"⟩ ∧
    storeLookup (process_l1_orderbook_data "191025" []
        ⟨some "C-ETH-3000-191025", some 0, some 5⟩) "C-ETH-3000-191025" =
      some ⟨0, 5, "C-ETH-3000-191025"⟩ :=
  quote_update_stores_unconditionally "191025" [] "C-ETH-3000-191025" 0 5
    (by decide) (by decide) (by decide) (Or.inl (le_refl 0))

/-- Claim C7, counterexample: `exStoreC7` holds four symbols forming two
populated strikes with a qualifying call violation (quantity 10, fresh
ledger), yet the ETH scan emits nothing because the store holds fewer than 10
symbols — while the same options, scanned directly, do yield an opportunity. -/
theorem eth_scan_ten_symbol_gate_cex :
    exStoreC7.length = 4 ∧
    (groupedStrikes (build_strikes exOptsC7)).length = 2 ∧
    (check_arbitrage_opportunities (fun _ => 10) 1000 "191025" exStoreC7 []).2 = [] ∧
    (check_arbitrage_same_expiry (fun _ => 10) 1000 "191025" exOptsC7 []).2 ≠ [] := by
  have hladder : build_strikes exOptsC7 =
      [(3000, { call := ⟨0, 10, "C-ETH-3000-191025"⟩,
                put := ⟨0, 0, "P-ETH-3000-191025"⟩ }),
       (3100, { call := ⟨13, 0, "C-ETH-3100-191025"⟩,
                put := ⟨0, 0, "P-ETH-3100-191025"⟩ })] := rfl
  refine ⟨rfl, ?_, ?_, ?_⟩
  · rw [hladder]
    decide
  · simp only [check_arbitrage_opportunities]
    rw [if_pos (by decide : exStoreC7.length < 10)]
  · have hscan : (check_arbitrage_same_expiry (fun _ => 10) 1000 "191025" exOptsC7 []).2 =
        [⟨Side.call, 3000, 3100, 10, 13, 3, 10⟩] := by
      simp only [check_arbitrage_same_expiry, hladder]
      norm_num [groupedStrikes, adjacentPairs, scan_pairs, check_pair,
        check_call_pair, check_put_pair, can_alert, ledgerLookup, ledgerSet,
        groupedLookup, DELTA_THRESHOLD_ETH, ALERT_COOLDOWN, List.insertionSort,
        List.orderedInsert, side_call_eq_put, side_put_eq_call]
      try rfl
    rw [hscan]
    simp

/-- Claim C7, amended: every scan emits nothing when fewer than two strikes
have data; the ETH variant additionally returns without scanning whenever its
quote store holds fewer than 10 symbols, and only once at least two strikes
(and, for ETH, at least 10 stored symbols) are present does the adjacent-pair
loop run, over a nonempty pair list. -/
theorem scan_empty_requires_two_strikes :
    (∀ (θ : ℚ) (qty : String → ℚ) (now : ℚ) (expiry : String)
        (grouped : Grouped) (L : Ledger),
      (groupedStrikes grouped).length < 2 →
      (check_arbitrage θ qty now expiry grouped L).2 = []) ∧
    (∀ (qty : String → ℚ) (now : ℚ) (expiry : String)
        (options : List OptionData) (L : Ledger),
      (groupedStrikes (build_strikes options)).length < 2 →
      check_arbitrage_same_expiry qty now expiry options L = (L, [])) ∧
    (∀ (qty : String → ℚ) (now : ℚ) (expiry : String) (store : Store)
        (L : Ledger),
      store.length < 10 →
      check_arbitrage_opportunities qty now expiry store L = (L, [])) ∧
    (∀ (qty : String → ℚ) (now : ℚ) (expiry : String)
        (options : List OptionData) (L : Ledger),
      2 ≤ (groupedStrikes (build_strikes options)).length →
      adjacentPairs (groupedStrikes (build_strikes options)) ≠ [] ∧
      check_arbitrage_same_expiry qty now expiry options L =
        scan_pairs DELTA_THRESHOLD_ETH qty now expiry
          (groupedLookup (build_strikes options))
          (adjacentPairs (groupedStrikes (build_strikes options))) L) := by
  refine ⟨?_, ?_, ?_, ?_⟩
  · intro θ qty now expiry grouped L h
    by_cases hge : grouped.isEmpty = true
    · unfold check_arbitrage
      rw [if_pos hge]
    · unfold check_arbitrage
      rw [if_neg hge, adjacentPairs_short h]
      rfl
  · intro qty now expiry options L h
    simp only [check_arbitrage_same_expiry]
    rw [if_pos h]
  · intro qty now expiry store L h
    simp only [check_arbitrage_opportunities]
    rw [if_pos h]
  · intro qty now expiry options L h
    refine ⟨adjacentPairs_ne_nil h, ?_⟩
    simp only [check_arbitrage_same_expiry]
    rw [if_neg (not_lt.mpr h)]

/-- Claim C7, witness for the amended theorem: an empty ladder scans to
nothing, an empty (hence under-10-symbol) ETH store scans to nothing, a
ladder of a single strike scans to nothing, and the two-strike ladder built
from `exOptsC7` yields a nonempty pair list for the loop. -/
theorem scan_empty_requires_two_strikes_witness :
    (check_arbitrage DELTA_THRESHOLD_BTC (fun _ => 0) 0 "" [] []).2 = [] ∧
    check_arbitrage_same_expiry (fun _ => 0) 0 "" [] [] = ([], []) ∧
    check_arbitrage_opportunities (fun _ => 0) 0 "" [] [] = ([], []) ∧
    adjacentPairs (groupedStrikes (build_strikes exOptsC7)) ≠ [] :=
  ⟨scan_empty_requires_two_strikes.1 DELTA_THRESHOLD_BTC (fun _ => 0) 0 "" [] []
      (by decide),
   scan_empty_requires_two_strikes.2.1 (fun _ => 0) 0 "" [] [] (by decide),
   scan_empty_requires_two_strikes.2.2.1 (fun _ => 0) 0 "" [] [] (by decide),
   (scan_empty_requires_two_strikes.2.2.2 (fun _ => 0) 0 "" exOptsC7 []
      (by decide)).1⟩

/-- Claim C8: with a nonempty, strictly ascending (Python `sorted(set(...))`)
listing of live expiries, `get_next_available_expiry` returns a listed expiry;
when some listed expiry is strictly greater than the candidate it returns the
least such, and when none is greater it returns the largest listed expiry. -/
theorem next_available_expiry_selects_least_greater (current : String)
    (available : List String) (hne : available ≠ [])
    (hsorted : available.Pairwise fun x y => strLtB x y = true) :
    get_next_available_expiry current available ∈ available ∧
    ((∃ e ∈ available, strLtB current e = true) →
      strLtB current (get_next_available_expiry current available) = true ∧
      ∀ e ∈ available, strLtB current e = true →
        e = get_next_available_expiry current available ∨
        strLtB (get_next_available_expiry current available) e = true) ∧
    ((∀ e ∈ available, strLtB current e = false) →
      ∀ e ∈ available, e = get_next_available_expiry current available ∨
        strLtB e (get_next_available_expiry current available) = true) := by
  have hemp : available.isEmpty = false := by
    cases available with
    | nil => exact absurd rfl hne
    | cons x t => rfl
  unfold get_next_available_expiry
  rw [hemp]
  simp only [Bool.false_eq_true, if_false]
  cases hf : available.find? fun e => strLtB current e with
  | some r =>
    obtain ⟨hr, hpr, hmin⟩ := find?_min_of_pairwise hsorted hf
    refine ⟨hr, fun _ => ⟨hpr, hmin⟩, ?_⟩
    intro hnone
    exact absurd hpr (by simp [hnone r hr])
  | none =>
    have hnone := List.find?_eq_none.mp hf
    obtain ⟨hmem, hmax⟩ := getLastD_max_of_pairwise hne current hsorted
    refine ⟨hmem, ?_, fun _ => hmax⟩
    rintro ⟨e, he, hlt⟩
    exact absurd hlt (by simp [hnone e he])

/-- Claim C8, witness: candidate `"101025"` against listing
`["091025", "111025"]` — the least listed expiry above the candidate is
selected. -/
theorem next_available_expiry_witness :
    get_next_available_expiry "101025" ["091025", "111025"] ∈
      (["091025", "111025"] : List String) ∧
    strLtB "101025" (get_next_available_expiry "101025" ["091025", "111025"]) =
      true :=
  ⟨(next_available_expiry_selects_least_greater "101025" ["091025", "111025"]
      (by decide) (by decide)).1,
   ((next_available_expiry_selects_least_greater "101025" ["091025", "111025"]
      (by decide) (by decide)).2.1 ⟨"111025", by decide, by decide⟩).1⟩

/-- Claim C9, counterexample: a scan of `exGrouped9` survives two
opportunities (one call, one put) and the dispatch loop hands the sink two
messages, not one batched message. -/
theorem alerts_sent_per_opportunity_cex :
    (check_arbitrage DELTA_THRESHOLD_BTC (fun _ => 10) 1000 "" exGrouped9 []).2.length = 2 ∧
    dispatch_alerts (check_arbitrage DELTA_THRESHOLD_BTC (fun _ => 10) 1000 "" exGrouped9 []).2 =
      (check_arbitrage DELTA_THRESHOLD_BTC (fun _ => 10) 1000 "" exGrouped9 []).2 ∧
    (dispatch_alerts
        (check_arbitrage DELTA_THRESHOLD_BTC (fun _ => 10) 1000 "" exGrouped9 []).2).length ≠ 1 := by
  have hscan : (check_arbitrage DELTA_THRESHOLD_BTC (fun _ => 10) 1000 "" exGrouped9 []).2 =
      [⟨Side.call, 100, 110, 10, 13, 3, 10⟩, ⟨Side.put, 100, 110, 10, 13, 3, 10⟩] := by
    norm_num [check_arbitrage, scan_pairs, check_pair, check_call_pair, check_put_pair,
      can_alert, ledgerLookup, ledgerSet, groupedStrikes, groupedLookup, adjacentPairs,
      exGrouped9, DELTA_THRESHOLD_BTC, ALERT_COOLDOWN, List.insertionSort, List.orderedInsert,
      side_call_eq_put, side_put_eq_call]
    try rfl
  rw [hscan]
  refine ⟨rfl, ?_, ?_⟩ <;> simp [dispatch_alerts]

/-- Claim C9, amended: each scan's surviving opportunities are handed to the
alert sink one `send_telegram` call per opportunity — the dispatch loop sends
the alerts list element-wise, so the number of sink messages equals the number
of surviving opportunities (it is not batched into a single message). -/
theorem alerts_sent_one_message_per_opportunity (θ : ℚ) (qty : String → ℚ)
    (now : ℚ) (expiry : String) (grouped : Grouped) (L : Ledger) :
    dispatch_alerts (check_arbitrage θ qty now expiry grouped L).2 =
      (check_arbitrage θ qty now expiry grouped L).2 ∧
    (dispatch_alerts (check_arbitrage θ qty now expiry grouped L).2).length =
      (check_arbitrage θ qty now expiry grouped L).2.length := by
  have h : ∀ alerts : List Opportunity, dispatch_alerts alerts = alerts := by
    intro alerts
    cases alerts <;> simp [dispatch_alerts]
  exact ⟨h _, by rw [h _]⟩

/-- Claim C1, counterexample: on `exGrouped` all of the claim's premises hold
for the adjacent pair `(100, 110)` — call ask 10 > 0 at 100, call bid 13 > 0
at 110, edge 3 ≥ the BTC threshold 2 — yet with no resting ask quantity (the
orderbook lookup returns 0, as `get_ask_quantity` does without data) a scan
emits no call opportunity at all. -/
theorem call_scan_requires_quantity_cex :
    0 < (groupedLookup exGrouped 100).call.ask ∧
    0 < (groupedLookup exGrouped 110).call.bid ∧
    DELTA_THRESHOLD_BTC ≤
      (groupedLookup exGrouped 110).call.bid -
        (groupedLookup exGrouped 100).call.ask ∧
    (100 : ℕ) < 110 ∧
    (∀ k ∈ exGrouped.map Prod.fst, ¬((100 : ℕ) < k ∧ k < 110)) ∧
    (check_arbitrage DELTA_THRESHOLD_BTC (fun _ => 0) 1000 "" exGrouped []).2 = [] := by
  refine ⟨by norm_num [groupedLookup, exGrouped],
    by norm_num [groupedLookup, exGrouped],
    by norm_num [groupedLookup, exGrouped, DELTA_THRESHOLD_BTC],
    by norm_num, by decide, ?_⟩
  norm_num [check_arbitrage, scan_pairs, check_pair, check_call_pair, check_put_pair,
    can_alert, ledgerLookup, ledgerSet, groupedStrikes, groupedLookup, adjacentPairs,
    exGrouped, DELTA_THRESHOLD_BTC, ALERT_COOLDOWN, List.insertionSort,
    List.orderedInsert, side_call_eq_put, side_put_eq_call]

/-- Claim C1, amended: for a ladder with distinct strikes and an adjacent pair
`strike1 < strike2` whose lower call has a symbol and ask > 0, whose upper
call has bid > 0, whose edge `bid(call, strike2) - ask(call, strike1)` reaches
the (positive) minimum-edge threshold, and — as the code additionally requires
— whose lower call shows a resting ask quantity above 5 lots and whose call
alert key is outside its cooldown window, a single scan emits exactly one call
opportunity for that pair, with edge `bid(call, strike2) - ask(call, strike1)`. -/
theorem call_scan_emits_unique_opportunity (θ : ℚ) (qty : String → ℚ)
    (now : ℚ) (expiry : String) (grouped : Grouped) (L : Ledger) (s1 s2 : ℕ)
    (hθ : 0 < θ) (hnodup : (grouped.map Prod.fst).Nodup)
    (hs1 : s1 ∈ grouped.map Prod.fst) (hs2 : s2 ∈ grouped.map Prod.fst)
    (hlt : s1 < s2)
    (hbetween : ∀ k ∈ grouped.map Prod.fst, ¬(s1 < k ∧ k < s2))
    (hask : 0 < (groupedLookup grouped s1).call.ask)
    (hsym : (groupedLookup grouped s1).call.symbol ≠ "")
    (hbid : 0 < (groupedLookup grouped s2).call.bid)
    (hedge : θ ≤ (groupedLookup grouped s2).call.bid -
      (groupedLookup grouped s1).call.ask)
    (hq : 5 < qty (groupedLookup grouped s1).call.symbol)
    (hcd : ALERT_COOLDOWN ≤ now - ledgerLookup L ⟨Side.call, s1, s2, expiry⟩) :
    (check_arbitrage θ qty now expiry grouped L).2.filter (isCallFor s1 s2) =
      [⟨Side.call, s1, s2, (groupedLookup grouped s1).call.ask,
        (groupedLookup grouped s2).call.bid,
        (groupedLookup grouped s2).call.bid - (groupedLookup grouped s1).call.ask,
        qty (groupedLookup grouped s1).call.symbol⟩] := by
  have hsort := groupedStrikes_sorted_lt hnodup
  have hmem : (s1, s2) ∈ adjacentPairs (groupedStrikes grouped) :=
    adjacent_mem_adjacentPairs hsort (groupedStrikes_mem.mpr hs1)
      (groupedStrikes_mem.mpr hs2) hlt
      fun c hc => hbetween c (groupedStrikes_mem.mp hc)
  have hnd := adjacentPairs_nodup hsort
  have hge : grouped.isEmpty = false := by
    cases grouped with
    | nil => simp at hs1
    | cons _ _ => rfl
  unfold check_arbitrage
  rw [hge]
  simp only [Bool.false_eq_true, if_false]
  exact scan_pairs_call_filter hmem hnd hθ hask hbid hsym hedge hq hcd

/-- Claim C1, witness for the amended theorem: the concrete two-strike ladder
with ask quantity 10 and a fresh ledger yields exactly the one call
opportunity with edge 3. -/
theorem call_scan_emits_unique_opportunity_witness :
    (check_arbitrage DELTA_THRESHOLD_BTC (fun _ => 10) 1000 "" exGrouped []).2.filter
        (isCallFor 100 110) =
      [⟨Side.call, 100, 110, (groupedLookup exGrouped 100).call.ask,
        (groupedLookup exGrouped 110).call.bid,
        (groupedLookup exGrouped 110).call.bid -
          (groupedLookup exGrouped 100).call.ask, 10⟩] :=
  call_scan_emits_unique_opportunity DELTA_THRESHOLD_BTC (fun _ => 10) 1000 ""
    exGrouped [] 100 110 (by norm_num [DELTA_THRESHOLD_BTC]) (by decide)
    (by decide) (by decide) (by norm_num) (by decide)
    (by norm_num [groupedLookup, exGrouped]) (by decide)
    (by norm_num [groupedLookup, exGrouped])
    (by norm_num [groupedLookup, exGrouped, DELTA_THRESHOLD_BTC])
    (by norm_num [groupedLookup, exGrouped])
    (by norm_num [ledgerLookup, ALERT_COOLDOWN])

/-- Claim C5: with distinct strikes, the scan's pair loop visits exactly the
adjacent pairs of the ascending strike ordering — every visited pair consists
of two listed strikes in ascending order with no listed strike strictly
between them — and every emitted opportunity carries one of the visited
pairs, so no non-adjacent strikes are ever compared. -/
theorem scan_compares_only_adjacent_strikes (θ : ℚ) (qty : String → ℚ)
    (now : ℚ) (expiry : String) (grouped : Grouped) (L : Ledger)
    (hnodup : (grouped.map Prod.fst).Nodup) :
    (∀ p ∈ adjacentPairs (groupedStrikes grouped),
       p.1 ∈ grouped.map Prod.fst ∧ p.2 ∈ grouped.map Prod.fst ∧ p.1 < p.2 ∧
         ∀ k ∈ grouped.map Prod.fst, ¬(p.1 < k ∧ k < p.2)) ∧
    (∀ o ∈ (check_arbitrage θ qty now expiry grouped L).2,
       (o.strike1, o.strike2) ∈ adjacentPairs (groupedStrikes grouped)) := by
  have hsort := groupedStrikes_sorted_lt hnodup
  constructor
  · rintro ⟨a, b⟩ hp
    obtain ⟨ha, hb, hab, hbet⟩ := adjacentPairs_spec hsort hp
    refine ⟨groupedStrikes_mem.mp ha, groupedStrikes_mem.mp hb, hab, ?_⟩
    intro k hk
    exact hbet k (groupedStrikes_mem.mpr hk)
  · intro o ho
    exact check_arbitrage_mem_pairs ho

/-- Claim C5, witness: on the concrete two-strike ladder the emitted
opportunity's pair `(100, 110)` is a visited pair, and that pair is adjacent
in the ladder's strikes. -/
theorem scan_compares_only_adjacent_strikes_witness :
    ((100, 110) : ℕ × ℕ) ∈ adjacentPairs (groupedStrikes exGrouped) ∧
    (100 : ℕ) < 110 := by
  have h := scan_compares_only_adjacent_strikes DELTA_THRESHOLD_BTC
    (fun _ => 10) 1000 "" exGrouped [] (by decide)
  have hscan : (check_arbitrage DELTA_THRESHOLD_BTC (fun _ => 10) 1000 "" exGrouped []).2 =
      [⟨Side.call, 100, 110, 10, 13, 3, 10⟩] := by
    norm_num [check_arbitrage, scan_pairs, check_pair, check_call_pair, check_put_pair,
      can_alert, ledgerLookup, ledgerSet, groupedStrikes, groupedLookup, adjacentPairs,
      exGrouped, DELTA_THRESHOLD_BTC, ALERT_COOLDOWN, List.insertionSort, List.orderedInsert,
      side_call_eq_put, side_put_eq_call]
    try rfl
  have hmem : (⟨Side.call, 100, 110, 10, 13, 3, 10⟩ : Opportunity) ∈
      (check_arbitrage DELTA_THRESHOLD_BTC (fun _ => 10) 1000 "" exGrouped []).2 := by
    rw [hscan]
    exact List.mem_singleton.mpr rfl
  have h2 := h.2 _ hmem
  exact ⟨h2, (h.1 _ h2).2.2.1⟩

/-- Claim C6: if a scan at time `t` emits an opportunity, the final ledger
stamps the opportunity's alert key with `t`, and any opportunity emitted by a
later scan from that ledger at time `t2` with `t2 - t < ALERT_COOLDOWN` —
whatever prices, quantities or threshold that scan sees — carries a different
alert key. -/
theorem alert_cooldown_suppresses_repeat (θ θ2 : ℚ) (qty qty2 : String → ℚ)
    (expiry : String) (grouped grouped2 : Grouped) (L : Ledger) (t t2 : ℚ)
    (o : Opportunity)
    (h1 : o ∈ (check_arbitrage θ qty t expiry grouped L).2)
    (hwin : t2 - t < ALERT_COOLDOWN) :
    ledgerLookup (check_arbitrage θ qty t expiry grouped L).1
        (oppKey expiry o) = t ∧
    ∀ o2 ∈ (check_arbitrage θ2 qty2 t2 expiry grouped2
        (check_arbitrage θ qty t expiry grouped L).1).2,
      oppKey expiry o2 ≠ oppKey expiry o := by
  refine ⟨check_arbitrage_stamped h1, ?_⟩
  intro o2 h2 heq
  have hcd := check_arbitrage_cooldown h2
  rw [heq, check_arbitrage_stamped h1] at hcd
  linarith

/-- Claim C6, witness: a first scan of `exGrouped` at `t = 1000` fires the
`(call, 100, 110)` key and stamps it with `1000`; a second scan 30 seconds
later over different strikes emits only differently-keyed opportunities. -/
theorem alert_cooldown_suppresses_repeat_witness :
    ledgerLookup (check_arbitrage DELTA_THRESHOLD_BTC (fun _ => 10) 1000 "" exGrouped []).1
        (oppKey "" ⟨Side.call, 100, 110, 10, 13, 3, 10⟩) = 1000 ∧
    oppKey "" (⟨Side.call, 200, 210, 10, 13, 3, 10⟩ : Opportunity) ≠
      oppKey "" (⟨Side.call, 100, 110, 10, 13, 3, 10⟩ : Opportunity) := by
  have hscan : (check_arbitrage DELTA_THRESHOLD_BTC (fun _ => 10) 1000 "" exGrouped []).2 =
      [⟨Side.call, 100, 110, 10, 13, 3, 10⟩] := by
    norm_num [check_arbitrage, scan_pairs, check_pair, check_call_pair, check_put_pair,
      can_alert, ledgerLookup, ledgerSet, groupedStrikes, groupedLookup, adjacentPairs,
      exGrouped, DELTA_THRESHOLD_BTC, ALERT_COOLDOWN, List.insertionSort, List.orderedInsert,
      side_call_eq_put, side_put_eq_call]
    try rfl
  have hm1 : (⟨Side.call, 100, 110, 10, 13, 3, 10⟩ : Opportunity) ∈
      (check_arbitrage DELTA_THRESHOLD_BTC (fun _ => 10) 1000 "" exGrouped []).2 := by
    rw [hscan]
    exact List.mem_singleton.mpr rfl
  have h := alert_cooldown_suppresses_repeat DELTA_THRESHOLD_BTC DELTA_THRESHOLD_BTC
    (fun _ => 10) (fun _ => 10) "" exGrouped exGrouped2 [] 1000 1030
    ⟨Side.call, 100, 110, 10, 13, 3, 10⟩ hm1 (by norm_num [ALERT_COOLDOWN])
  have hscan2 : (check_arbitrage DELTA_THRESHOLD_BTC (fun _ => 10) 1030 "" exGrouped2
      (check_arbitrage DELTA_THRESHOLD_BTC (fun _ => 10) 1000 "" exGrouped []).1).2 =
      [⟨Side.call, 200, 210, 10, 13, 3, 10⟩] := by
    norm_num [check_arbitrage, scan_pairs, check_pair, check_call_pair, check_put_pair,
      can_alert, ledgerLookup, ledgerSet, groupedStrikes, groupedLookup, adjacentPairs,
      exGrouped, exGrouped2, DELTA_THRESHOLD_BTC, ALERT_COOLDOWN,
      List.insertionSort, List.orderedInsert, side_call_eq_put, side_put_eq_call]
    try rfl
  refine ⟨h.1, h.2 _ ?_⟩
  rw [hscan2]
  exact List.mem_singleton.mpr rfl

/-- Claim C10: one spike-detector history update keeps at most 10 entries,
the retained entries end with the just-appended price, and the baseline is
the arithmetic mean of the retained entries other than that price. -/
theorem price_history_bounded_and_baseline (h : List ℚ) (p : ℚ) :
    (update_price_history h p).length ≤ 10 ∧
    (update_price_history h p).dropLast ++ [p] = update_price_history h p ∧
    historical_avg (update_price_history h p) =
      (update_price_history h p).dropLast.sum /
        ((update_price_history h p).dropLast.length : ℚ) := by
  have havg : ∀ l : List ℚ, historical_avg l =
      l.dropLast.sum / ((l.dropLast.length : ℕ) : ℚ) := by
    intro l
    simp [historical_avg, List.length_dropLast]
  have hlen10 : (update_price_history h p).length ≤ 10 := by
    unfold update_price_history
    by_cases hlen : (h ++ [p]).length > 10
    · rw [if_pos hlen, List.length_drop]
      omega
    · rw [if_neg hlen]
      omega
  have hupd : (update_price_history h p).dropLast ++ [p] = update_price_history h p := by
    unfold update_price_history
    by_cases hlen : (h ++ [p]).length > 10
    · rw [if_pos hlen]
      have hle : (h ++ [p]).length - 10 ≤ h.length := by
        simp only [List.length_append, List.length_cons, List.length_nil]
        omega
      rw [List.drop_append_of_le_length hle, List.dropLast_concat]
    · rw [if_neg hlen, List.dropLast_concat]
  exact ⟨hlen10, hupd, havg _⟩

end DeltaArb
